import Mathlib

/-!
Shallow embedding of the quality-metrics pipeline (`dwi_quality.py`) and the
header synthesizer (`nhdr_write.py`) of the `conversion` repository, together
with theorems settling the frozen claims about them.

Numeric arrays are modelled over `ℚ` (exact arithmetic); a 4-D volume is a list
of voxels, each voxel being the list of its values along the gradient axis
(every operation of the pipeline on these arrays is voxelwise, so the spatial
shape is irrelevant).  Float `NaN` is modelled by `Option ℚ` (`none` = NaN)
where it can actually arise (histogram densities).  The header synthesizer's
`sqrt` lives over `ℝ`.
-/

namespace DwiQuality

/-- `inf = 65535.` — the large sentinel constant of `dwi_quality.py` (line 19). -/
def inf : ℚ := 65535

/-- Membership test of one `np.histogram` bin `[lo, hi)`; the final bin is
closed on both ends (`[lo, hi]`), matching numpy's documented binning. -/
def binPred (last : Bool) (lo hi x : ℚ) : Bool :=
  decide (lo ≤ x) && (if last then decide (x ≤ hi) else decide (x < hi))

/-- Per-bin element counts of `np.histogram(a, bins)[0]` (line 41):
`len(bins) - 1` bins, each `[bins[i], bins[i+1])` except the final bin which is
`[bins[N-2], bins[N-1]]`.  Fewer than two edges give no bins. -/
def histCounts (a : List ℚ) : List ℚ → List ℕ
  | [lo, hi] => [(a.filter (binPred true lo hi)).length]
  | lo :: hi :: r :: rest =>
      (a.filter (binPred false lo hi)).length :: histCounts a (hi :: r :: rest)
  | _ => []

/-- `temp.astype('float')/sum(temp)` (line 42): when the total count is `0`,
every float division `0.0/0.0` yields NaN (`none`); otherwise each density is
the exact quotient. -/
def histDensities (a bins : List ℚ) : List (Option ℚ) :=
  if (histCounts a bins).sum = 0 then
    (histCounts a bins).map (fun _ => (none : Option ℚ))
  else
    (histCounts a bins).map (fun c : ℕ => some ((c : ℚ) / (((histCounts a bins).sum : ℕ) : ℚ)))

/-- `hist_calc` (lines 35–53).  The NaN-suppression line 45, `hist[np.isnan]= 0`,
indexes the array with the function object `np.isnan` itself; numpy raises an
`IndexError`, which the bare `except: pass` swallows, so the densities are
returned unchanged — NaNs are NOT replaced by 0. -/
def hist_calc (a bins : List ℚ) : List (Option ℚ) := histDensities a bins

/-- Sum of a density vector in float semantics: any NaN (`none`) contaminates
the sum, which is then NaN. -/
def sumDensities (l : List (Option ℚ)) : Option ℚ :=
  l.foldr (fun x acc =>
    match x, acc with
    | some a, some b => some (a + b)
    | _, _ => none) (some 0)

/-- `mask_calc(M, interval)` (lines 55–62): flag `1` where the value is below
`interval[0]` or above `interval[1]`, else `0`.  Callers always pass lists with
at least two elements (a short list would raise `IndexError` in Python). -/
def mask_calc (M : List ℚ) (interval : List ℚ) : List ℚ :=
  let lo := interval.getD 0 0
  let hi := interval.getD 1 0
  M.map (fun v => if v < lo ∨ hi < v then (1 : ℚ) else 0)

/-- Minimum of a list, as `np.min` computes it; `np.min` raises on an empty
array, and every call site below guarantees a non-empty list. -/
def npMin : List ℚ → ℚ
  | [] => 0
  | [x] => x
  | x :: y :: ys => min x (npMin (y :: ys))

/-- Maximum of a list (`max` builtin of Python); callers pass non-empty lists. -/
def npMax : List ℚ → ℚ
  | [] => 0
  | [x] => x
  | x :: y :: ys => max x (npMax (y :: ys))

/-- Ascending in-place `list.sort()` of Python, modelled functionally. -/
def pySort (l : List ℚ) : List ℚ := l.insertionSort (· ≤ ·)

/-- `form_bins(interval)` (lines 64–79), value returned to the caller.
With fewer than two elements `interval[0]`/`interval[1]` raise `IndexError`
(`none`).  In the straddling branch the extra edges are appended to the list
(note that `max(interval)` is evaluated after `0` was appended, and
`min(interval)` after `1` may have been appended); in the other branch the
local name is rebound to the fresh list `[interval[0], np.mean(interval),
interval[1]]`.  Either list is then sorted ascending and returned. -/
def form_bins (interval : List ℚ) : Option (List ℚ) :=
  match interval with
  | a :: b :: _ =>
      if a * b < 0 then
        let l1 := interval ++ [0]
        let l2 := if 1 < npMax l1 then l1 ++ [1] else l1
        let l3 := if npMin l2 < -1 then l2 ++ [-1] else l2
        some (pySort l3)
      else
        some (pySort [a, interval.sum / (interval.length : ℚ), b])
  | _ => none

/-- The state of the CALLER's list object after `form_bins` returns: in the
straddling branch `append` and `sort` mutate the argument in place, so the
caller holds the returned edge list; in the other branch line 75 rebinds the
local name, so the caller's list is untouched. -/
def form_bins_caller (interval : List ℚ) : Option (List ℚ) :=
  match interval with
  | a :: b :: _ =>
      if a * b < 0 then
        let l1 := interval ++ [0]
        let l2 := if 1 < npMax l1 then l1 ++ [1] else l1
        let l3 := if npMin l2 < -1 then l2 ++ [-1] else l2
        some (pySort l3)
      else
        some interval
  | _ => none

/-! ### Signal-drop detector (`quality.main`, lines 190–207)

`bvals` is the b-value list, one entry per gradient-axis index; a voxel is the
list of its values along the gradient axis (same length as `bvals`). -/

/-- The voxel's values at the `where_b0s = np.where(bvals==0)[0]` indices. -/
def b0Vals (bvals v : List ℚ) : List ℚ :=
  ((v.zip bvals).filter (fun p => decide (p.2 = 0))).map Prod.fst

/-- The voxel's values at the `where_dwi = np.where(bvals!=0)[0]` indices
(`curtail_dwi = np.take(data, where_dwi, ...)`, line 197). -/
def dwiVals (bvals v : List ℚ) : List ℚ :=
  ((v.zip bvals).filter (fun p => decide (¬ p.2 = 0))).map Prod.fst

/-- `bse_data = data[...,where_b0s].mean(-1)` followed by the clamp
`bse_data[bse_data < 1] = 1.` (lines 192–194). -/
def bseClamped (bvals v : List ℚ) : ℚ :=
  let m := (b0Vals bvals v).sum / ((b0Vals bvals v).length : ℚ)
  if m < 1 then 1 else m

/-- `minOverGrads = np.min(extend_bse - curtail_dwi, axis=grad_axis) / bse_data`
(line 200): the per-voxel minimum of `baseline - volume_i` over the non-zero-b
indices, divided by the clamped baseline. -/
def minOverGrads (bvals v : List ℚ) : ℚ :=
  npMin ((dwiVals bvals v).map (fun g => bseClamped bvals v - g)) / bseClamped bvals v

/-- `minOverGradsNegativeMask = (minOverGrads < 0) * 1` (line 207). -/
def negMask (bvals v : List ℚ) : ℚ :=
  if minOverGrads bvals v < 0 then 1 else 0

/-- The clamped baseline as a field over the volume. -/
def bseField (bvals : List ℚ) (vol : List (List ℚ)) : List ℚ :=
  vol.map (bseClamped bvals)

/-- The signal-drop ratio field over the volume. -/
def ratioField (bvals : List ℚ) (vol : List (List ℚ)) : List ℚ :=
  vol.map (minOverGrads bvals)

/-- The negative mask as a field over the volume. -/
def negMaskField (bvals : List ℚ) (vol : List (List ℚ)) : List ℚ :=
  vol.map (negMask bvals)

/-- `data = applymask(data, mask_data)` (line 163): elementwise product of the
volume with the (broadcast) mask. -/
def applymask (vol : List (List ℚ)) (mask : List ℚ) : List (List ℚ) :=
  (vol.zip mask).map (fun p => p.1.map (· * p.2))

/-! ### Printed summary (`quality.main`, lines 209–267) -/

/-- `negative, _ = hist_calc(minOverGrads, [-inf, 0, inf])` (lines 211–212)
followed by `negative * 100` (line 262): the printed signal-drop percentage is
the first histogram density times 100 (NaN propagates). -/
def printedSigDropPct (bvals : List ℚ) (vol : List (List ℚ)) : Option ℚ :=
  ((hist_calc (ratioField bvals vol) [-inf, 0, inf]).headI).map (· * 100)

/-- `evals_zero_mask` (lines 172–173): `1` where any of the three per-voxel
eigenvalues is strictly negative. -/
def evalsZeroMask (evalsField : List (ℚ × ℚ × ℚ)) : List ℚ :=
  evalsField.map (fun e => if e.1 < 0 ∨ e.2.1 < 0 ∨ e.2.2 < 0 then (1 : ℚ) else 0)

/-- Printed percentage of voxels with a negative eigenvalue (line 263):
`evals_zero_mask.sum() / N_mask * 100` with `N_mask = mask_data.sum()`. -/
def printedEvalsPct (evalsField : List (ℚ × ℚ × ℚ)) (mask : List ℚ) : ℚ :=
  (evalsZeroMask evalsField).sum / mask.sum * 100

/-- Printed percentage of voxels with FA out of range (lines 187, 264). -/
def printedFaPct (fa faInterval mask : List ℚ) : ℚ :=
  (mask_calc fa faInterval).sum / mask.sum * 100

/-- Printed percentage of voxels with MD out of range (lines 188, 265). -/
def printedMdPct (md mdInterval mask : List ℚ) : ℚ :=
  (mask_calc md mdInterval).sum / mask.sum * 100

/-- Printed percentage of voxels with MK out of range (lines 242, 267),
emitted only when the kurtosis fit is feasible. -/
def printedMkPct (mk mkInterval mask : List ℚ) : ℚ :=
  (mask_calc mk mkInterval).sum / mask.sum * 100

/-! ### Dimensionality check (`quality.main`, lines 136–161) -/

/-- The two input-volume formats dispatched on by file extension. -/
inductive Fmt
  | nifti
  | nrrd
  deriving DecidableEq

/-- The pre-fit loading phase of `quality.main`, reduced to what it decides
about the data array's dimensionality.  On the NIfTI branch (lines 136–146),
`len(data.shape) != 4` raises `AttributeError` before the gradient table is
built and before any fit.  On the NRRD branch (lines 149–161) no
dimensionality test occurs in `quality.main`.  Modelled from the spec: the
NRRD branch's gradient-metadata reader `nrrd_bvals_bvecs` (module
`bval_bvec_io`, not present under `src/`) is, per the spec, an external
gradient-table-I/O collaborator with no dimensionality contract, so it is
modelled as returning successfully.  `.ok` means execution reaches the tensor
fit. -/
def loadPhase (fmt : Fmt) (ndim : ℕ) : Except String Unit :=
  match fmt with
  | .nifti => if ndim ≠ 4 then .error "Not a valid dwi, check dimension" else .ok ()
  | .nrrd => .ok ()

end DwiQuality

namespace NhdrWrite

/-- The fixed reflection matrix of `nhdr_write.main` line 144,
`np.array([[-1, 0, 0], [0, 1, 0], [0, 0, 1]], dtype='int')`. -/
def reflectionMF : Matrix (Fin 3) (Fin 3) ℤ :=
  Matrix.of ![![-1, 0, 0], ![0, 1, 0], ![0, 0, 1]]

/-- `np.eye(3, dtype='int')` of line 142. -/
def identityMF : Matrix (Fin 3) (Fin 3) ℤ :=
  Matrix.of ![![1, 0, 0], ![0, 1, 0], ![0, 0, 1]]

/-- Measurement-frame selection of `nhdr_write.main` lines 140–147:
`affine_det = np.linalg.det(hdr.get_qform())`; a strictly negative determinant
selects the identity, a strictly positive one the fixed reflection matrix, and
with determinant zero the name `mf` is never assigned, so line 147 raises
`NameError` (`none`). -/
def measurementFrame (A : Matrix (Fin 4) (Fin 4) ℚ) : Option (Matrix (Fin 3) (Fin 3) ℤ) :=
  if A.det < 0 then some identityMF
  else if 0 < A.det then some reflectionMF
  else none

/-- Euclidean norm of a 3-vector, `numpy.linalg.norm(bvec)`. -/
noncomputable def norm3 (v : Fin 3 → ℝ) : ℝ :=
  Real.sqrt (v 0 ^ 2 + v 1 ^ 2 + v 2 ^ 2)

/-- Numeric content of `bvec_scaling(bval, bvec, b_max)` (lines 43–53); the
source then stringifies the components and joins them, which is not modelled.
`if bval:` is Python float truthiness, i.e. `bval ≠ 0`; when the b-value is
non-zero the vector is multiplied componentwise by `factor = sqrt(bval/b_max)`
unless its norm already equals `factor`, in which case it is left untouched. -/
noncomputable def bvec_scaling (bval : ℝ) (bvec : Fin 3 → ℝ) (b_max : ℝ) : Fin 3 → ℝ :=
  if bval ≠ 0 then
    if norm3 bvec ≠ Real.sqrt (bval / b_max) then
      fun i => bvec i * Real.sqrt (bval / b_max)
    else bvec
  else bvec

end NhdrWrite

namespace DwiQuality

lemma histCounts_pair (a : List ℚ) (lo hi : ℚ) :
    histCounts a [lo, hi] = [(a.filter (binPred true lo hi)).length] := rfl

lemma histCounts_cons₂ (a : List ℚ) (lo hi r : ℚ) (rest : List ℚ) :
    histCounts a (lo :: hi :: r :: rest)
      = (a.filter (binPred false lo hi)).length :: histCounts a (hi :: r :: rest) := rfl

lemma sumDensities_nil : sumDensities [] = some 0 := rfl

lemma sumDensities_cons (x : Option ℚ) (l : List (Option ℚ)) :
    sumDensities (x :: l)
      = match x, sumDensities l with
        | some a, some b => some (a + b)
        | _, _ => none := rfl

lemma sumDensities_map_div (counts : List ℕ) (t : ℚ) :
    sumDensities (counts.map (fun c : ℕ => some ((c : ℚ) / t)))
      = some (((counts.sum : ℕ) : ℚ) / t) := by
  induction counts with
  | nil => simp [sumDensities_nil, zero_div]
  | cons c cs ih =>
      rw [List.map_cons, sumDensities_cons, ih]
      have h : ((c : ℚ)) / t + ((cs.sum : ℕ) : ℚ) / t = (((c :: cs).sum : ℕ) : ℚ) / t := by
        rw [div_add_div_same]
        push_cast
        rw [List.map_cons, List.sum_cons]
      simpa using h

lemma npMin_singleton (x : ℚ) : npMin [x] = x := rfl

lemma npMin_cons₂ (x y : ℚ) (ys : List ℚ) :
    npMin (x :: y :: ys) = min x (npMin (y :: ys)) := rfl

lemma npMax_singleton (x : ℚ) : npMax [x] = x := rfl

lemma npMax_cons₂ (x y : ℚ) (ys : List ℚ) :
    npMax (x :: y :: ys) = max x (npMax (y :: ys)) := rfl

lemma npMin_map_div (l : List ℚ) (c : ℚ) (hc : 0 ≤ c) :
    npMin (l.map (fun x => x / c)) = npMin l / c := by
  induction l with
  | nil => simp [npMin, zero_div]
  | cons x xs ih =>
      cases xs with
      | nil => simp [npMin]
      | cons y ys =>
          simp only [List.map_cons] at ih ⊢
          rw [npMin_cons₂, npMin_cons₂, ih, min_div_div_right hc]

lemma npMin_eq_zero (l : List ℚ) (h : ∀ y ∈ l, y = 0) : npMin l = 0 := by
  induction l with
  | nil => rfl
  | cons x xs ih =>
      cases xs with
      | nil => simpa [npMin_singleton] using h x (by simp)
      | cons y ys =>
          rw [npMin_cons₂, h x (by simp), ih (fun z hz => h z (by simp [hz]))]
          simp

lemma bseClamped_pos (bvals v : List ℚ) : 0 < bseClamped bvals v := by
  by_cases h : (b0Vals bvals v).sum / ((b0Vals bvals v).length : ℚ) < 1
  · simp [bseClamped, h]
  · simp only [bseClamped, if_neg h]
    linarith [not_lt.mp h]

lemma sum_map_indicator {α : Type} (l : List α) (p : α → Prop) [DecidablePred p] :
    (l.map (fun v => if p v then (1 : ℚ) else 0)).sum
      = ((l.filter (fun v => decide (p v))).length : ℚ) := by
  induction l with
  | nil => simp
  | cons a t ih =>
      by_cases h : p a <;> simp [List.filter_cons, h, ih] <;> push_cast <;> ring

lemma histCounts_sum_pos (a : List ℚ) (x : ℚ) (hxa : x ∈ a) :
    ∀ (rest : List ℚ) (lo hi : ℚ), List.Sorted (· ≤ ·) (lo :: hi :: rest) →
      lo ≤ x → x ≤ (hi :: rest).getLastD 0 →
      0 < (histCounts a (lo :: hi :: rest)).sum := by
  intro rest
  induction rest with
  | nil =>
      intro lo hi _ hlo hhi
      have hhi' : x ≤ hi := by simpa [List.getLastD_cons] using hhi
      have hmem : x ∈ a.filter (binPred true lo hi) :=
        List.mem_filter.mpr ⟨hxa, by simp [binPred, hlo, hhi']⟩
      have hpos : 0 < (a.filter (binPred true lo hi)).length :=
        List.length_pos.mpr (List.ne_nil_of_mem hmem)
      simpa [histCounts_pair] using hpos
  | cons r rs ih =>
      intro lo hi hs hlo hhi
      by_cases hxhi : x < hi
      · have hmem : x ∈ a.filter (binPred false lo hi) :=
          List.mem_filter.mpr ⟨hxa, by simp [binPred, hlo, hxhi]⟩
        have hpos : 0 < (a.filter (binPred false lo hi)).length :=
          List.length_pos.mpr (List.ne_nil_of_mem hmem)
        rw [histCounts_cons₂, List.sum_cons]
        exact Nat.add_pos_left hpos _
      · push_neg at hxhi
        have hhi' : x ≤ (r :: rs).getLastD 0 := by
          simpa [List.getLastD_cons] using hhi
        have htail : 0 < (histCounts a (hi :: r :: rs)).sum :=
          ih hi r hs.of_cons hxhi hhi'
        rw [histCounts_cons₂, List.sum_cons]
        exact Nat.add_pos_right _ htail

lemma filter_bins_partition (l : List ℚ) (hrange : ∀ x ∈ l, -inf ≤ x ∧ x ≤ inf) :
    (l.filter (binPred false (-inf) 0)).length + (l.filter (binPred true 0 inf)).length
      = l.length := by
  induction l with
  | nil => simp
  | cons a t ih =>
      obtain ⟨h1, h2⟩ := hrange a (by simp)
      have ih' := ih (fun x hx => hrange x (by simp [hx]))
      by_cases ha : a < 0
      · have ha' : ¬ (0 : ℚ) ≤ a := not_le.mpr ha
        simp only [List.filter_cons, binPred, List.length_cons]
        simp [h1, h2, ha, ha']
        omega
      · push_neg at ha
        have ha' : ¬ a < 0 := not_lt.mpr ha
        simp only [List.filter_cons, binPred, List.length_cons]
        simp [h1, h2, ha, ha']
        omega

lemma dwiVals_ne_nil (bvals v : List ℚ) (hlen : v.length = bvals.length)
    (hdwi : ∃ b ∈ bvals, b ≠ 0) : dwiVals bvals v ≠ [] := by
  obtain ⟨b, hb, hb0⟩ := hdwi
  have hsnd : (v.zip bvals).map Prod.snd = bvals :=
    List.map_snd_zip v bvals (le_of_eq hlen.symm)
  rw [← hsnd] at hb
  obtain ⟨p, hp, hpb⟩ := List.mem_map.mp hb
  have hpf : p ∈ (v.zip bvals).filter (fun p => decide (¬ p.2 = 0)) :=
    List.mem_filter.mpr ⟨hp, by simp [hpb, hb0]⟩
  exact fun hnil => by
    have : p.1 ∈ dwiVals bvals v := List.mem_map.mpr ⟨p, hpf, rfl⟩
    simp [hnil] at this

lemma minOverGrads_eq_min_of_ratios (bvals v : List ℚ) :
    minOverGrads bvals v
      = npMin ((dwiVals bvals v).map
          (fun g => (bseClamped bvals v - g) / bseClamped bvals v)) := by
  unfold minOverGrads
  rw [← npMin_map_div _ _ (bseClamped_pos bvals v).le, List.map_map]
  rfl

lemma pySort_perm (l : List ℚ) : List.Perm (pySort l) l := List.perm_insertionSort _ l

lemma pySort_sorted (l : List ℚ) : (pySort l).Sorted (· ≤ ·) :=
  List.sorted_insertionSort _ l

lemma pySort_length (l : List ℚ) : (pySort l).length = l.length :=
  List.length_insertionSort _ l

lemma pySort_nodup (l : List ℚ) (h : l.Nodup) : (pySort l).Nodup :=
  (pySort_perm l).nodup_iff.mpr h

lemma sum_eq_count_one (l : List ℚ) (h01 : ∀ m ∈ l, m = 0 ∨ m = 1) :
    l.sum = ((l.filter (fun m => decide (m = 1))).length : ℚ) := by
  induction l with
  | nil => simp
  | cons a t ih =>
      have ih' := ih (fun m hm => h01 m (by simp [hm]))
      rcases h01 a (by simp) with ha | ha <;> subst ha <;>
        simp [List.filter_cons, ih'] <;> push_cast <;> ring

/-- C3: the spec says any division-by-zero-induced NaN in the densities is
replaced by 0 before the densities are returned.  In the code the replacement
line `hist[np.isnan]= 0` (line 45) indexes with the function object `np.isnan`,
raising an `IndexError` which the bare `except: pass` swallows, so on the field
`[5]` with bins `[0, 1]` (total bin count 0) the returned density is NaN, not
0, and the density sum is NaN. -/
theorem hist_calc_nan_not_replaced :
    hist_calc [5] [0, 1] = [none] ∧ sumDensities (hist_calc [5] [0, 1]) = none := by
  constructor <;>
    norm_num [hist_calc, histDensities, histCounts, binPred, sumDensities]

/-- C4 counterexample: the claim puts density 1 in the lower bin and 0 in the
upper for an all-zero field with edges `[-inf, 0, inf]`; `np.histogram` bins
are inclusive-exclusive except the final bin, so the value 0 falls in the
UPPER bin `[0, inf]`, and the densities are `[0, 1]`, not `[1, 0]`. -/
theorem hist_calc_all_zero_counterexample :
    hist_calc [0] [-inf, 0, inf] = [some 0, some 1]
    ∧ hist_calc [0] [-inf, 0, inf] ≠ [some 1, some 0] := by
  have h : hist_calc [0] [-inf, 0, inf] = [some 0, some 1] := by
    norm_num [hist_calc, histDensities, histCounts, binPred, inf]
  exact ⟨h, by rw [h]; simp⟩

/-- C4 amended: for every non-empty field all of whose elements are zero, the
histogram reporter called with the two-bin edge list `[-inf, 0, inf]` returns
density 0 in the lower bin and density 1 in the upper bin (the zero values
fall in the final bin, which includes its left edge). -/
theorem hist_calc_all_zero_field (a : List ℚ) (hne : a ≠ []) (hz : ∀ x ∈ a, x = 0) :
    hist_calc a [-inf, 0, inf] = [some 0, some 1] := by
  have h1 : a.filter (binPred false (-inf) 0) = [] :=
    List.filter_eq_nil_iff.mpr (fun x hx => by
      have hx0 := hz x hx
      subst hx0
      simp [binPred])
  have h2 : a.filter (binPred true 0 inf) = a :=
    List.filter_eq_self.mpr (fun x hx => by
      have hx0 := hz x hx
      subst hx0
      simp [binPred, inf])
  have hlen : a.length ≠ 0 := fun h => hne (List.length_eq_zero.mp h)
  have hc : histCounts a [-inf, 0, inf] = [0, a.length] := by
    rw [histCounts_cons₂, histCounts_pair, h1, h2]
    simp
  simp only [hist_calc, histDensities, hc, List.sum_cons, List.sum_nil, Nat.add_zero,
    Nat.zero_add]
  rw [if_neg hlen]
  simp only [List.map_cons, List.map_nil, Nat.cast_zero, zero_div]
  rw [div_self (by exact_mod_cast hlen)]

/-- C4 witness: the amended statement evaluated at the field `[0]`. -/
theorem hist_calc_all_zero_field_witness :
    ([(0 : ℚ)] ≠ ([] : List ℚ)) ∧ hist_calc [0] [-inf, 0, inf] = [some 0, some 1] :=
  ⟨by simp, hist_calc_all_zero_field [0] (by simp) (by simp)⟩

/-- C5 counterexample: on the non-empty field `[5]` with the sorted two-edge
list `[0, 1]` every element misses the bins, the total count is 0, the
densities are NaN (the zeroing line is a no-op, see C3), and no real density
sum within `1e-9` of 1 exists. -/
theorem hist_densities_sum_counterexample :
    ([(5 : ℚ)] ≠ ([] : List ℚ))
    ∧ List.Sorted (· ≤ ·) [(0 : ℚ), 1]
    ∧ 2 ≤ ([(0 : ℚ), 1]).length
    ∧ ¬ ∃ s : ℚ, sumDensities (hist_calc [5] [0, 1]) = some s ∧ |s - 1| ≤ 1 / 1000000000 := by
  refine ⟨by simp, by norm_num [List.sorted_cons], by norm_num, ?_⟩
  have h : sumDensities (hist_calc [5] [0, 1]) = none := by
    norm_num [hist_calc, histDensities, histCounts, binPred, sumDensities]
  rintro ⟨s, hs, -⟩
  rw [h] at hs
  exact Option.noConfusion hs

/-- C5 amended: for every field and every sorted edge list with at least two
edges such that some field element lies within the outer edges, the densities
returned by the histogram reporter sum to exactly 1, in particular within the
claimed tolerance of `1e-9`. -/
theorem hist_densities_sum_one (a bins : List ℚ) (h2 : 2 ≤ bins.length)
    (hsort : List.Sorted (· ≤ ·) bins) (x : ℚ) (hxa : x ∈ a)
    (hlo : bins.headI ≤ x) (hhi : x ≤ bins.getLastD 0) :
    ∃ s : ℚ, sumDensities (hist_calc a bins) = some s ∧ |s - 1| ≤ 1 / 1000000000 := by
  obtain ⟨lo, hi, rest, rfl⟩ : ∃ lo hi rest, bins = lo :: hi :: rest := by
    cases bins with
    | nil => simp at h2
    | cons lo t =>
        cases t with
        | nil => simp at h2
        | cons hi rest => exact ⟨lo, hi, rest, rfl⟩
  have hlo' : lo ≤ x := by simpa using hlo
  have hhi' : x ≤ (hi :: rest).getLastD 0 := by
    have heq : (lo :: hi :: rest).getLastD 0 = (hi :: rest).getLastD 0 := by
      simp [List.getLastD_cons]
    rwa [heq] at hhi
  have hpos := histCounts_sum_pos a x hxa rest lo hi hsort hlo' hhi'
  have htot : (histCounts a (lo :: hi :: rest)).sum ≠ 0 := Nat.pos_iff_ne_zero.mp hpos
  refine ⟨1, ?_, by norm_num⟩
  simp only [hist_calc, histDensities, if_neg htot]
  rw [sumDensities_map_div, div_self (by exact_mod_cast htot)]

/-- C5 witness: the amended statement evaluated at the field `[0]` with edges
`[0, 1]`. -/
theorem hist_densities_sum_one_witness :
    ∃ s : ℚ, sumDensities (hist_calc [0] [0, 1]) = some s ∧ |s - 1| ≤ 1 / 1000000000 :=
  hist_densities_sum_one [0] [0, 1] (by norm_num) (by norm_num [List.sorted_cons]) 0
    (by simp) (by simp) (by simp [List.getLastD_cons])

/-- C1: for every 4-D volume with at least one zero and one non-zero b-value,
the signal-drop detector computes (a) a baseline field that is the mean of the
volume over the `b = 0` gradient indices with every value below 1 clamped to 1
(equivalently, `max mean 1`), (b) a ratio field that is the per-voxel minimum,
over the non-zero-b indices, of `(baseline - volume_i) / baseline` (the source
divides after taking the minimum; the clamped baseline is positive, so the two
agree), (c) a negative mask that is 1 exactly where the ratio field is
strictly negative, and (d) if every non-zero-b value of a voxel equals its
baseline, ratio field and negative mask are all zeros. -/
theorem signal_drop_detector (bvals : List ℚ) (vol : List (List ℚ))
    (hb0 : ∃ b ∈ bvals, b = 0) (hdwi : ∃ b ∈ bvals, b ≠ 0)
    (hlen : ∀ v ∈ vol, v.length = bvals.length) :
    bseField bvals vol
        = vol.map (fun v => max ((b0Vals bvals v).sum / ((b0Vals bvals v).length : ℚ)) 1)
    ∧ ratioField bvals vol
        = vol.map (fun v =>
            npMin ((dwiVals bvals v).map
              (fun g => (bseClamped bvals v - g) / bseClamped bvals v)))
    ∧ negMaskField bvals vol
        = (ratioField bvals vol).map (fun r => if r < 0 then (1 : ℚ) else 0)
    ∧ ((∀ v ∈ vol, ∀ g ∈ dwiVals bvals v, g = bseClamped bvals v) →
        ratioField bvals vol = vol.map (fun _ => (0 : ℚ))
        ∧ negMaskField bvals vol = vol.map (fun _ => (0 : ℚ))) := by
  refine ⟨?_, ?_, ?_, ?_⟩
  · refine List.map_congr_left (fun v _ => ?_)
    by_cases h : (b0Vals bvals v).sum / ((b0Vals bvals v).length : ℚ) < 1
    · simp [bseClamped, h, max_eq_right h.le]
    · simp [bseClamped, h, max_eq_left (not_lt.mp h)]
  · exact List.map_congr_left (fun v _ => minOverGrads_eq_min_of_ratios bvals v)
  · rw [ratioField, List.map_map]
    rfl
  · intro hall
    have hvox : ∀ v ∈ vol, minOverGrads bvals v = 0 := by
      intro v hv
      have hz : ∀ y ∈ (dwiVals bvals v).map (fun g => bseClamped bvals v - g), y = 0 := by
        intro y hy
        obtain ⟨g, hg, rfl⟩ := List.mem_map.mp hy
        rw [hall v hv g hg, sub_self]
      rw [minOverGrads, npMin_eq_zero _ hz, zero_div]
    constructor
    · exact List.map_congr_left (fun v hv => hvox v hv)
    · refine List.map_congr_left (fun v hv => ?_)
      rw [negMask, hvox v hv]
      norm_num

/-- C1 witness: the detector evaluated at `bvals = [0, 1000]` and the
one-voxel volume `[[2, 4]]`: the baseline is 2, the ratio is
`min (2 - 4) / 2 = -1`, and the voxel is flagged. -/
theorem signal_drop_detector_witness :
    ratioField [0, 1000] [[2, 4]] = [-1] ∧ negMaskField [0, 1000] [[2, 4]] = [1] := by
  have h := signal_drop_detector [0, 1000] [[2, 4]] (by norm_num) (by norm_num)
    (by norm_num)
  constructor
  · rw [h.2.1]
    norm_num [dwiVals, bseClamped, b0Vals, npMin]
  · rw [h.2.2.1, h.2.1]
    norm_num [dwiVals, bseClamped, b0Vals, npMin]

/-- C2 counterexample: with `bvals = [0, 1000]`, the two-voxel volume
`[[2, 4], [7, 9]]` and the mask `[1, 0]`, one voxel is flagged by the
signal-drop detector and one voxel is inside the mask, so the claim's value is
`1 / 1 * 100 = 100`; the code prints the histogram density of the negative bin
over ALL voxels times 100, i.e. `1 / 2 * 100 = 50`. -/
theorem printed_sigdrop_counterexample :
    printedSigDropPct [0, 1000] (applymask [[2, 4], [7, 9]] [1, 0]) = some 50
    ∧ (negMaskField [0, 1000] (applymask [[2, 4], [7, 9]] [1, 0])).sum
        / ([(1 : ℚ), 0]).sum * 100 = 100
    ∧ (50 : ℚ) ≠ 100 := by
  refine ⟨?_, ?_, by norm_num⟩
  · norm_num [printedSigDropPct, applymask, ratioField, minOverGrads, bseClamped,
      b0Vals, dwiVals, npMin, hist_calc, histDensities, histCounts, binPred, inf,
      List.headI]
  · norm_num [negMaskField, negMask, applymask, minOverGrads, bseClamped, b0Vals,
      dwiVals, npMin]

/-- C2 amended: for the negative-eigenvalue, FA, MD and MK indicators the
printed percentage is `(number of flagged voxels) / (number of mask-included
voxels) * 100`; the signal-drop percentage instead is the density of the
strictly-negative histogram bin over ALL voxels of the volume times 100, i.e.
`(number of voxels with negative ratio) / (total number of voxels) * 100`
(provided every ratio lies within the `±inf` sentinels), which differs from
the claimed value whenever the mask does not include every voxel. -/
theorem printed_percentages (bvals mask : List ℚ) (vol : List (List ℚ))
    (evalsField : List (ℚ × ℚ × ℚ)) (fa md mk faI mdI mkI : List ℚ)
    (hmask01 : ∀ m ∈ mask, m = 0 ∨ m = 1)
    (hm : mask.length = vol.length) (hne : vol ≠ [])
    (hrange : ∀ r ∈ ratioField bvals (applymask vol mask), -inf ≤ r ∧ r ≤ inf) :
    printedEvalsPct evalsField mask
        = (((evalsZeroMask evalsField).filter (fun m => decide (m = 1))).length : ℚ)
          / ((mask.filter (fun m => decide (m = 1))).length : ℚ) * 100
    ∧ printedFaPct fa faI mask
        = (((mask_calc fa faI).filter (fun m => decide (m = 1))).length : ℚ)
          / ((mask.filter (fun m => decide (m = 1))).length : ℚ) * 100
    ∧ printedMdPct md mdI mask
        = (((mask_calc md mdI).filter (fun m => decide (m = 1))).length : ℚ)
          / ((mask.filter (fun m => decide (m = 1))).length : ℚ) * 100
    ∧ printedMkPct mk mkI mask
        = (((mask_calc mk mkI).filter (fun m => decide (m = 1))).length : ℚ)
          / ((mask.filter (fun m => decide (m = 1))).length : ℚ) * 100
    ∧ printedSigDropPct bvals (applymask vol mask)
        = some ((((ratioField bvals (applymask vol mask)).filter
              (fun r => decide (r < 0))).length : ℚ)
            / ((vol.length : ℕ) : ℚ) * 100) := by
  have hmaskcount := sum_eq_count_one mask hmask01
  have hcalc01 : ∀ (M I : List ℚ), ∀ m ∈ mask_calc M I, m = 0 ∨ m = 1 := by
    intro M I m hm'
    obtain ⟨v, _, rfl⟩ := List.mem_map.mp hm'
    split_ifs <;> simp
  have hev01 : ∀ m ∈ evalsZeroMask evalsField, m = 0 ∨ m = 1 := by
    intro m hm'
    obtain ⟨e, _, rfl⟩ := List.mem_map.mp hm'
    split_ifs <;> simp
  refine ⟨?_, ?_, ?_, ?_, ?_⟩
  · rw [printedEvalsPct, hmaskcount, sum_eq_count_one _ hev01]
  · rw [printedFaPct, hmaskcount, sum_eq_count_one _ (hcalc01 fa faI)]
  · rw [printedMdPct, hmaskcount, sum_eq_count_one _ (hcalc01 md mdI)]
  · rw [printedMkPct, hmaskcount, sum_eq_count_one _ (hcalc01 mk mkI)]
  · have hflen : (ratioField bvals (applymask vol mask)).length = vol.length := by
      rw [ratioField, List.length_map, applymask, List.length_map, List.length_zip, hm,
        min_self]
    have hc0 : (ratioField bvals (applymask vol mask)).filter (binPred false (-inf) 0)
        = (ratioField bvals (applymask vol mask)).filter (fun r => decide (r < 0)) := by
      refine List.filter_congr (fun r hr => ?_)
      have h1 := (hrange r hr).1
      simp [binPred, h1]
    have hpart := filter_bins_partition (ratioField bvals (applymask vol mask)) hrange
    have htot : (histCounts (ratioField bvals (applymask vol mask)) [-inf, 0, inf]).sum
        = vol.length := by
      rw [histCounts_cons₂, histCounts_pair, List.sum_cons, List.sum_cons, List.sum_nil,
        Nat.add_zero, hpart, hflen]
    have hvne : vol.length ≠ 0 := fun h => hne (List.length_eq_zero.mp h)
    rw [printedSigDropPct, hist_calc, histDensities, htot, if_neg hvne,
      histCounts_cons₂, histCounts_pair, hc0]
    simp [List.headI, mul_comm]

/-- C2 witness: the amended statement evaluated at a concrete one-voxel run. -/
theorem printed_percentages_witness :
    printedEvalsPct [((1 : ℚ), 1, 1)] [1]
        = (((evalsZeroMask [((1 : ℚ), 1, 1)]).filter (fun m => decide (m = 1))).length : ℚ)
          / ((([(1 : ℚ)]).filter (fun m => decide (m = 1))).length : ℚ) * 100
    ∧ printedSigDropPct [0, 1000] (applymask [[2, 4]] [1])
        = some ((((ratioField [0, 1000] (applymask [[2, 4]] [1])).filter
              (fun r => decide (r < 0))).length : ℚ)
            / ((([[(2 : ℚ), 4]]).length : ℕ) : ℚ) * 100) := by
  have h := printed_percentages [0, 1000] [1] [[2, 4]] [((1 : ℚ), 1, 1)]
    [1/2] [1/2] [1/2] [0, 1] [0, 1] [0, 1] (by norm_num) (by norm_num) (by simp)
    (by
      intro r hr
      have hr' : r = -1 := by
        revert hr
        norm_num [ratioField, applymask, minOverGrads, bseClamped, b0Vals, dwiVals, npMin]
      rw [hr']
      norm_num [inf])
  exact ⟨h.1, h.2.2.2.2⟩

/-- C6: for an interval straddling zero (`low * high < 0`) the bin-edge
synthesizer returns a sorted, duplicate-free list of three to five edges whose
elements are exactly `low`, `high`, `0`, plus `1` when `max low high > 1` and
`-1` when `min low high < -1`; otherwise it returns `[low, mean(low, high),
high]` sorted.  In particular `[-1, 2] ↦ [-1, 0, 1, 2]` and
`[0, 1] ↦ [0, 1/2, 1]`. -/
theorem form_bins_spec (low high : ℚ) :
    (low * high < 0 →
      ∃ edges, form_bins [low, high] = some edges
        ∧ List.Perm edges ([low, high, 0]
            ++ (if 1 < max low high then [1] else [])
            ++ (if min low high < -1 then [-1] else []))
        ∧ edges.Sorted (· ≤ ·) ∧ edges.Nodup
        ∧ 3 ≤ edges.length ∧ edges.length ≤ 5)
    ∧ (¬ low * high < 0 →
        form_bins [low, high] = some (pySort [low, (low + high) / 2, high]))
    ∧ form_bins [-1, 2] = some [-1, 0, 1, 2]
    ∧ form_bins [0, 1] = some [0, 1/2, 1] := by
  refine ⟨?_, ?_, ?_, ?_⟩
  · intro h
    have hmaxpos : 0 < max low high := by
      obtain ⟨h1, -⟩ | ⟨-, h2⟩ := mul_neg_iff.mp h
      · exact lt_max_iff.mpr (Or.inl h1)
      · exact lt_max_iff.mpr (Or.inr h2)
    have hminneg : min low high < 0 := by
      obtain ⟨-, h2⟩ | ⟨h1, -⟩ := mul_neg_iff.mp h
      · exact min_lt_iff.mpr (Or.inr h2)
      · exact min_lt_iff.mpr (Or.inl h1)
    have hmax3 : npMax [low, high, 0] = max low high := by
      rw [npMax_cons₂, npMax_cons₂, npMax_singleton, ← max_assoc, max_eq_left hmaxpos.le]
    have hmin3 : npMin [low, high, 0] = min low high := by
      rw [npMin_cons₂, npMin_cons₂, npMin_singleton, ← min_assoc, min_eq_left hminneg.le]
    have hmin4 : npMin [low, high, 0, 1] = min low high := by
      rw [npMin_cons₂, npMin_cons₂, npMin_cons₂, npMin_singleton,
        min_eq_left (by norm_num : (0 : ℚ) ≤ 1), ← min_assoc, min_eq_left hminneg.le]
    have hlh : low ≠ high := by
      obtain ⟨h1, h2⟩ | ⟨h1, h2⟩ := mul_neg_iff.mp h
      · exact ne_of_gt (h2.trans h1)
      · exact ne_of_lt (h1.trans h2)
    have hl0 : low ≠ 0 := by
      obtain ⟨h1, -⟩ | ⟨h1, -⟩ := mul_neg_iff.mp h
      · exact ne_of_gt h1
      · exact ne_of_lt h1
    have hh0 : high ≠ 0 := by
      obtain ⟨-, h2⟩ | ⟨-, h2⟩ := mul_neg_iff.mp h
      · exact ne_of_lt h2
      · exact ne_of_gt h2
    have hne_one : 1 < max low high → low ≠ 1 ∧ high ≠ 1 := by
      intro c1
      obtain ⟨h1, h2⟩ | ⟨h1, h2⟩ := mul_neg_iff.mp h
      · rw [max_eq_left (le_of_lt (h2.trans h1))] at c1
        exact ⟨ne_of_gt c1, ne_of_lt (by linarith)⟩
      · rw [max_eq_right (le_of_lt (h1.trans h2))] at c1
        exact ⟨ne_of_lt (by linarith), ne_of_gt c1⟩
    have hne_negone : min low high < -1 → low ≠ -1 ∧ high ≠ -1 := by
      intro c2
      obtain ⟨h1, h2⟩ | ⟨h1, h2⟩ := mul_neg_iff.mp h
      · rw [min_eq_right (le_of_lt (h2.trans h1))] at c2
        exact ⟨ne_of_gt (by linarith), ne_of_lt c2⟩
      · rw [min_eq_left (le_of_lt (h1.trans h2))] at c2
        exact ⟨ne_of_lt c2, ne_of_gt (by linarith)⟩
    by_cases c1 : 1 < max low high <;> by_cases c2 : min low high < -1
    · obtain ⟨hl1, hh1⟩ := hne_one c1
      obtain ⟨hlm, hhm⟩ := hne_negone c2
      have hform : form_bins [low, high] = some (pySort [low, high, 0, 1, -1]) := by
        simp only [form_bins, List.cons_append, List.nil_append, hmax3, hmin3, hmin4,
          if_pos h, if_pos c1, if_pos c2]
      refine ⟨pySort [low, high, 0, 1, -1], hform, ?_, pySort_sorted _, ?_, ?_, ?_⟩
      · simpa [c1, c2] using pySort_perm [low, high, 0, 1, -1]
      · exact pySort_nodup _ (by norm_num [List.nodup_cons, hlh, hl0, hh0, hl1, hh1, hlm, hhm])
      · rw [pySort_length]; norm_num
      · rw [pySort_length]; norm_num
    · obtain ⟨hl1, hh1⟩ := hne_one c1
      have hform : form_bins [low, high] = some (pySort [low, high, 0, 1]) := by
        simp only [form_bins, List.cons_append, List.nil_append, hmax3, hmin3, hmin4,
          if_pos h, if_pos c1, if_neg c2]
      refine ⟨pySort [low, high, 0, 1], hform, ?_, pySort_sorted _, ?_, ?_, ?_⟩
      · simpa [c1, c2] using pySort_perm [low, high, 0, 1]
      · exact pySort_nodup _ (by norm_num [List.nodup_cons, hlh, hl0, hh0, hl1, hh1])
      · rw [pySort_length]; norm_num
      · rw [pySort_length]; norm_num
    · obtain ⟨hlm, hhm⟩ := hne_negone c2
      have hform : form_bins [low, high] = some (pySort [low, high, 0, -1]) := by
        simp only [form_bins, List.cons_append, List.nil_append, hmax3, hmin3, hmin4,
          if_pos h, if_neg c1, if_pos c2]
      refine ⟨pySort [low, high, 0, -1], hform, ?_, pySort_sorted _, ?_, ?_, ?_⟩
      · simpa [c1, c2] using pySort_perm [low, high, 0, -1]
      · exact pySort_nodup _ (by norm_num [List.nodup_cons, hlh, hl0, hh0, hlm, hhm])
      · rw [pySort_length]; norm_num
      · rw [pySort_length]; norm_num
    · have hform : form_bins [low, high] = some (pySort [low, high, 0]) := by
        simp only [form_bins, List.cons_append, List.nil_append, hmax3, hmin3, hmin4,
          if_pos h, if_neg c1, if_neg c2]
      refine ⟨pySort [low, high, 0], hform, ?_, pySort_sorted _, ?_, ?_, ?_⟩
      · simpa [c1, c2] using pySort_perm [low, high, 0]
      · exact pySort_nodup _ (by norm_num [List.nodup_cons, hlh, hl0, hh0])
      · rw [pySort_length]; norm_num
      · rw [pySort_length]; norm_num
  · intro h
    simp only [form_bins, if_neg h]
    norm_num
  · norm_num [form_bins, npMin, npMax, pySort, List.insertionSort, List.orderedInsert]
  · norm_num [form_bins, npMin, npMax, pySort, List.insertionSort, List.orderedInsert]

/-- C6 witness: the straddling branch of the synthesizer evaluated on the
interval `[-1, 2]`. -/
theorem form_bins_spec_witness :
    ∃ edges, form_bins [-1, 2] = some edges
      ∧ List.Perm edges ([(-1 : ℚ), 2, 0]
          ++ (if 1 < max (-1 : ℚ) 2 then [1] else [])
          ++ (if min (-1 : ℚ) 2 < -1 then [-1] else []))
      ∧ edges.Sorted (· ≤ ·) ∧ edges.Nodup
      ∧ 3 ≤ edges.length ∧ edges.length ≤ 5 :=
  (form_bins_spec (-1) 2).1 (by norm_num)

/-- C10: when the interval straddles zero, `form_bins` appends the extra edges
to the CALLER's list and sorts it in place, so after the call the caller's
configured interval list equals the returned edge list and no longer equals
the original two-element `[low, high]`. -/
theorem form_bins_mutates_argument (low high : ℚ) (h : low * high < 0) :
    form_bins_caller [low, high] = form_bins [low, high]
    ∧ form_bins_caller [low, high] ≠ some [low, high] := by
  constructor
  · simp only [form_bins, form_bins_caller, if_pos h]
  · intro hc
    simp only [form_bins_caller, List.cons_append, List.nil_append, if_pos h,
      Option.some.injEq] at hc
    have hlen := congrArg List.length hc
    rw [pySort_length] at hlen
    split_ifs at hlen <;> simp [List.length_append] at hlen

/-- C10 witness: the mutation observed on the interval `[-1, 2]`. -/
theorem form_bins_mutates_argument_witness :
    ((-1 : ℚ) * 2 < 0)
    ∧ form_bins_caller [-1, 2] = form_bins [-1, 2]
    ∧ form_bins_caller [-1, 2] ≠ some [(-1 : ℚ), 2] :=
  ⟨by norm_num, (form_bins_mutates_argument (-1) 2 (by norm_num)).1,
    (form_bins_mutates_argument (-1) 2 (by norm_num)).2⟩

/-- C9 counterexample: the dimensionality check exists only on the NIfTI
branch; on the NRRD branch a 3-D data array reaches the tensor fit without any
dimensionality error being raised. -/
theorem nrrd_no_dim_check :
    loadPhase Fmt.nrrd 3 = Except.ok ()
    ∧ ¬ ∃ msg, loadPhase Fmt.nrrd 3 = Except.error msg := by
  refine ⟨rfl, ?_⟩
  rintro ⟨msg, hmsg⟩
  simp [loadPhase] at hmsg

/-- C9 amended: on the NIfTI path every volume whose data array is not 4-D
raises `AttributeError` before any tensor fit is attempted; the NRRD path
performs no dimensionality check of its own. -/
theorem nifti_dim_check (n : ℕ) (h : n ≠ 4) :
    loadPhase Fmt.nifti n = Except.error "Not a valid dwi, check dimension" := by
  simp [loadPhase, h]

/-- C9 witness: the NIfTI check evaluated on a 3-D data array. -/
theorem nifti_dim_check_witness :
    ((3 : ℕ) ≠ 4)
    ∧ loadPhase Fmt.nifti 3 = Except.error "Not a valid dwi, check dimension" :=
  ⟨by decide, nifti_dim_check 3 (by decide)⟩

end DwiQuality

namespace NhdrWrite

/-- C7: in 4-D header synthesis, a strictly positive determinant of the source
world-coordinate transform yields the fixed reflection matrix
`[[-1,0,0],[0,1,0],[0,0,1]]` as measurement frame, and a strictly negative
determinant yields the 3×3 identity matrix. -/
theorem measurement_frame_sign (A : Matrix (Fin 4) (Fin 4) ℚ) :
    (0 < A.det → measurementFrame A = some !![-1, 0, 0; 0, 1, 0; 0, 0, 1])
    ∧ (A.det < 0 → measurementFrame A = some (1 : Matrix (Fin 3) (Fin 3) ℤ)) := by
  constructor
  · intro h
    rw [measurementFrame, if_neg (not_lt.mpr h.le), if_pos h]
    rfl
  · intro h
    rw [measurementFrame, if_pos h]
    congr 1
    rw [Matrix.one_fin_three]
    rfl

/-- C7 witness: the identity affine (determinant 1) receives the reflection
frame, and the diagonal affine with entries `(-1, 1, 1, 1)` (determinant -1)
receives the identity frame. -/
theorem measurement_frame_sign_witness :
    (0 : ℚ) < (1 : Matrix (Fin 4) (Fin 4) ℚ).det
    ∧ measurementFrame 1 = some !![-1, 0, 0; 0, 1, 0; 0, 0, 1]
    ∧ (Matrix.diagonal ![(-1 : ℚ), 1, 1, 1]).det < 0
    ∧ measurementFrame (Matrix.diagonal ![(-1 : ℚ), 1, 1, 1])
        = some (1 : Matrix (Fin 3) (Fin 3) ℤ) := by
  have hpos : (0 : ℚ) < (1 : Matrix (Fin 4) (Fin 4) ℚ).det := by
    simp [Matrix.det_one]
  have hneg : (Matrix.diagonal ![(-1 : ℚ), 1, 1, 1]).det < 0 := by
    simp [Matrix.det_diagonal, Fin.prod_univ_four]
  exact ⟨hpos, (measurement_frame_sign 1).1 hpos, hneg,
    (measurement_frame_sign _).2 hneg⟩

/-- C8 counterexample: the claim says rescaling by `sqrt(b_i / b_max)` is
skipped only when `b_i = 0`; the code also skips it whenever the b-vector's
norm already equals the scaling factor.  At `b = 1`, `b_max = 4`,
`bvec = (1/2, 0, 0)` the norm is `1/2 = sqrt(1/4)`, so the literal vector is
emitted, whose first component `1/2` differs from the claimed scaled value
`1/2 * sqrt(1/4) = 1/4`. -/
theorem bvec_scaling_counterexample :
    bvec_scaling 1 ![(1 : ℝ)/2, 0, 0] 4 0
      ≠ ![(1 : ℝ)/2, 0, 0] 0 * Real.sqrt (1 / 4) := by
  have hsq : Real.sqrt ((1 : ℝ)/4) = 1/2 := by
    rw [show (1 : ℝ)/4 = (1/2)^2 by norm_num, Real.sqrt_sq (by norm_num : (0 : ℝ) ≤ 1/2)]
  have harg : (![(1 : ℝ)/2, 0, 0] 0)^2 + (![(1 : ℝ)/2, 0, 0] 1)^2
      + (![(1 : ℝ)/2, 0, 0] 2)^2 = 1/4 := by
    norm_num [Matrix.cons_val_zero, Matrix.cons_val_one, Matrix.head_cons]
  have hnorm : norm3 ![(1 : ℝ)/2, 0, 0] = Real.sqrt (1 / 4) := by
    rw [norm3, harg]
  rw [bvec_scaling, if_pos (by norm_num : (1 : ℝ) ≠ 0),
    if_neg (not_not_intro hnorm)]
  rw [hsq]
  norm_num [Matrix.cons_val_zero]

/-- C8 amended: the emitted vector is the b-vector scaled componentwise by
`sqrt(b_i / b_max)` whenever `b_i ≠ 0` AND the b-vector's norm differs from
that factor; the literal b-vector is emitted both when `b_i = 0` and when the
norm already equals the factor; and for `b_i = b_max ≠ 0` (scaling factor
`sqrt 1 = 1`) the b-vector is reproduced unchanged either way. -/
theorem bvec_scaling_spec (bval b_max : ℝ) (bvec : Fin 3 → ℝ) :
    (bval = 0 → bvec_scaling bval bvec b_max = bvec)
    ∧ (bval ≠ 0 → norm3 bvec = Real.sqrt (bval / b_max) →
        bvec_scaling bval bvec b_max = bvec)
    ∧ (bval ≠ 0 → norm3 bvec ≠ Real.sqrt (bval / b_max) →
        bvec_scaling bval bvec b_max = fun i => bvec i * Real.sqrt (bval / b_max))
    ∧ (bval = b_max → bval ≠ 0 → bvec_scaling bval bvec b_max = bvec) := by
  refine ⟨?_, ?_, ?_, ?_⟩
  · intro h
    rw [bvec_scaling, if_neg (not_not_intro h)]
  · intro h hn
    rw [bvec_scaling, if_pos h, if_neg (not_not_intro hn)]
  · intro h hn
    rw [bvec_scaling, if_pos h, if_pos hn]
  · intro hb h
    subst hb
    have hsq1 : Real.sqrt (bval / bval) = 1 := by
      rw [div_self h, Real.sqrt_one]
    rw [bvec_scaling, if_pos h, hsq1]
    split_ifs with hn
    · funext i
      rw [mul_one]
    · rfl

/-- C8 witness: a zero b-value emits the literal b-vector, and the maximal
b-value reproduces the unit b-vector unscaled. -/
theorem bvec_scaling_spec_witness :
    bvec_scaling 0 ![(1 : ℝ), 0, 0] 1 = ![(1 : ℝ), 0, 0]
    ∧ bvec_scaling 1 ![(1 : ℝ), 0, 0] 1 = ![(1 : ℝ), 0, 0] :=
  ⟨(bvec_scaling_spec 0 1 ![(1 : ℝ), 0, 0]).1 rfl,
   (bvec_scaling_spec 1 1 ![(1 : ℝ), 0, 0]).2.2.2 rfl (by norm_num)⟩

end NhdrWrite

